import Mathlib

/-!
Verification of the Starmap task-distribution subsystem of
`openquake/baselib/parallel.py` via a shallow embedding in Lean 4.

Python strings are modelled as `List Char` (or `String` for class names),
byte strings as `List Nat`, percentages and measured durations as `ℚ`.
Two helpers from `openquake.baselib.general` (`split_in_blocks` and
`block_splitter`) are not part of the sources and are modelled from the
specification; every other definition is translated from `parallel.py`.
-/

namespace OQ

/-! ## Result envelopes and exception transport (parallel.py 303-354) -/

/-- A Python exception value as transported inside a failure envelope:
its class name, whether its class is a subclass of `KeyError`, and the
text rendered by `str(exc)`. -/
structure ExcVal where
  clsname : String
  isKeyErrorSub : Bool
  text : List Char
deriving DecidableEq

/-- An exception raised at the orchestrator boundary: the class that is
raised and the message it carries. -/
structure RaisedExc where
  clsname : String
  message : List Char
deriving DecidableEq

/-- Failure path of a `Result` (parallel.py 312-336): the unpickled value
`val` (an exception instance when `tb_str` is nonempty) and the rendered
traceback string `tb_str`. -/
structure ResultFail where
  val : ExcVal
  tb_str : List Char
deriving DecidableEq

/-- Translation of `Result.get` (parallel.py 324-336).  When `tb_str` is
nonempty the message is built as in the source
(`msg = '\n%s%s: %s' % (self.tb_str, etype.__name__, val)`) and an
exception of class `etype` is raised, except that a subclass of
`KeyError` is remapped to `RuntimeError`. -/
def ResultFail.get (r : ResultFail) : Except RaisedExc ExcVal :=
  if r.tb_str = [] then Except.ok r.val
  else
    let msg : List Char :=
      '\n' :: (r.tb_str ++ r.val.clsname.toList ++ ':' :: ' ' :: r.val.text)
    if r.val.isKeyErrorSub then Except.error ⟨"RuntimeError", msg⟩
    else Except.error ⟨r.val.clsname, msg⟩

/-! ## Memory checks in the safe invocation wrapper (parallel.py 357-370
and 403-406) -/

/-- A raised `MemoryError` carrying the used and allowed percentages, as
in `check_mem_usage` (parallel.py 364-367). -/
structure MemoryError where
  used : ℚ
  allowed : ℚ
deriving DecidableEq

/-- Translation of `check_mem_usage` (parallel.py 357-370): above the hard
limit a `MemoryError` is raised; above the soft limit a warning message
(modelled by the used percentage it reports) is returned; otherwise the
function returns `None`. -/
def check_mem_usage (soft_percent hard_percent used_mem_percent : ℚ) :
    Except MemoryError (Option ℚ) :=
  if used_mem_percent > hard_percent then
    Except.error ⟨used_mem_percent, hard_percent⟩
  else if used_mem_percent > soft_percent then
    Except.ok (some used_mem_percent)
  else Except.ok none

/-- An envelope sent over the push socket by `safely_call`: either the
warning envelope `Result(None, mon, msg=msg)` built from the memory
warning, or a task result envelope (left abstract). -/
inductive SentEnvelope (ρ : Type) where
  | warning (usedPercent : ℚ)
  | taskResult (r : ρ)
deriving DecidableEq

/-- Memory handling of `safely_call` (parallel.py 403-427): the memory
check runs once per call before the generator loop.  If it raises, the
exception escapes `safely_call` and nothing is sent; if it returns a
warning, a dedicated warning envelope is sent first; then the task result
envelopes follow. -/
def safely_call_sent (soft hard used : ℚ) (results : List ρ) :
    Except MemoryError (List (SentEnvelope ρ)) :=
  match check_mem_usage soft hard used with
  | Except.error e => Except.error e
  | Except.ok none => Except.ok (results.map SentEnvelope.taskResult)
  | Except.ok (some w) =>
      Except.ok (SentEnvelope.warning w :: results.map SentEnvelope.taskResult)

/-! ## Task splitters -/

/-- Chunks of size `k + 1` taken from the front of a list, in order. -/
def chunksOf (k : Nat) : List α → List (List α)
  | [] => []
  | x :: xs => (x :: xs.take k) :: chunksOf k (xs.drop k)
termination_by l => l.length
decreasing_by simp [List.length_drop]; omega

/-- Modelled from the spec: eager split `split_in_blocks` from
`openquake.baselib.general` (not under the sources), restricted to the
default weight (1 per element) and the default constant key used by the
code under verification: the input is cut into consecutive runs of size
`ceil (n / T)`, producing close to `T` chunks, none empty, in order. -/
def split_in_blocks (seq : List α) (t : Nat) : List (List α) :=
  chunksOf ((seq.length + max t 1 - 1) / max t 1 - 1) seq

/-- Modelled from the spec: lazy split `block_splitter` from
`openquake.baselib.general` (not under the sources): walk the sequence
once, accumulating elements into the current chunk until adding the next
element would exceed the ceiling `maxW`; the chunk is flushed at that
point; an element whose own weight exceeds `maxW` still gets its own
singleton chunk.  `cur` is the current chunk in reverse order and `acc`
its accumulated weight. -/
def blockSplitGo (maxW : ℚ) (w : α → ℚ) : List α → List α → ℚ → List (List α)
  | [], [], _ => []
  | [], c :: cs, _ => [(c :: cs).reverse]
  | x :: xs, [], _ => blockSplitGo maxW w xs [x] (w x)
  | x :: xs, c :: cs, acc =>
      if acc + w x > maxW then
        (c :: cs).reverse :: blockSplitGo maxW w xs [x] (w x)
      else blockSplitGo maxW w xs (x :: c :: cs) (acc + w x)

/-- Modelled from the spec: entry point of the lazy splitter. -/
def block_splitter (items : List α) (maxW : ℚ) (w : α → ℚ) :
    List (List α) :=
  blockSplitGo maxW w items [] 0

/-! ## Adaptive re-splitter `split_task` (parallel.py 814-839) -/

/-- One item yielded by `split_task`: either the result of running `func`
inline on a chunk (`res`), or a new sub-task `(func, chunk, *args[1:-1])`
to be resubmitted rather than executed (`subtask`). -/
inductive SplitYield (α : Type) where
  | res (chunk : List α)
  | subtask (chunk : List α)
deriving DecidableEq

/-- Stable descending insertion of `x` into a list already sorted by
descending weight: `x` is placed before the first element of strictly
smaller weight, so elements of equal weight keep their original relative
order. -/
def insertDesc (weight : α → ℚ) (x : α) : List α → List α
  | [] => [x]
  | y :: ys => if weight y < weight x then x :: y :: ys else y :: insertDesc weight x ys

/-- Elements of `args[0]` sorted by descending weight, as in
`sorted(args[0], key=weight, reverse=True)` (parallel.py 823); the stable
sort of Python is modelled by stable insertion sort. -/
def splitSorted (elements : List α) (weight : α → ℚ) : List α :=
  elements.foldr (insertDesc weight) []

/-- Blocks carved by `split_task` (parallel.py 836) out of the elements
other than the heaviest one: `block_splitter(other, duration,
lambda el: weight(el) * dt)` where `dt` is the measured time per unit of
weight of the heaviest element. -/
def split_task_blocks (elements : List α) (weight : α → ℚ)
    (duration elapsed : ℚ) : List (List α) :=
  match splitSorted elements weight with
  | [] => []
  | first :: other =>
      block_splitter other duration (fun el => weight el * (elapsed / weight first))

/-- Translation of `split_task` (parallel.py 814-839).  The wall-clock
measurement of the heaviest element is modelled by the parameter
`elapsed`; the derived rate is `dt = elapsed / weight first`.  An empty
sequence trips the assertion (`none`); a single element yields the direct
result of `func` on the original arguments; otherwise the heaviest
element runs alone first, every block but the last is yielded as a
sub-task and the last block runs inline. -/
def split_task (elements : List α) (weight : α → ℚ)
    (duration elapsed : ℚ) : Option (List (SplitYield α)) :=
  match splitSorted elements weight with
  | [] => none
  | [_] => some [SplitYield.res elements]
  | first :: _other =>
      let blocks := split_task_blocks elements weight duration elapsed
      some (SplitYield.res [first] ::
        (blocks.dropLast.map SplitYield.subtask ++
         [SplitYield.res (blocks.getLastD [])]))

/-! ## Starmap.apply argument handling and the sequential reference
(parallel.py 636-647 and 797-804) -/

/-- Task-argument construction of `Starmap.apply` (parallel.py 636-647),
eager path: `arg0 = args[0]` is split with `split_in_blocks` and each
chunk is paired with the middle arguments `args[1:-1]`; the last element
of `args` is dropped.  The first component of each pair is the chunk,
the second the tuple of forwarded fixed arguments. -/
def Starmap.applyTaskargs (arg0 : List α) (rest : List γ)
    (concurrent_tasks : Nat) : List (List α × List γ) :=
  (split_in_blocks arg0 concurrent_tasks).map (fun blk => (blk, rest.dropLast))

/-- Execution of the submitted tasks under distribution mode `no`: each
task runs synchronously at submission, so results arrive in submission
order.  The Starmap monitor is appended as last argument when the last
parameter name of the task is monitor-like (`monitor.inject`,
parallel.py 401-402, 673-674). -/
def Starmap.applyResults (task : List α → List γ → β) (inject : Bool)
    (selfMonitor : γ) (arg0 : List α) (rest : List γ)
    (concurrent_tasks : Nat) : List β :=
  (Starmap.applyTaskargs arg0 rest concurrent_tasks).map
    (fun ta => task ta.1 (ta.2 ++ if inject then [selfMonitor] else []))

/-- Translation of `IterResult.reduce` (parallel.py 524-529): fold
`acc = agg(acc, result)` over the consumed results. -/
def IterResult.reduce (agg : β → β → β) (acc : β) (results : List β) : β :=
  results.foldl agg acc

/-- Translation of `sequential_apply` (parallel.py 797-804): split
`args[0]` in blocks and apply the task to `(chunk,) + args[1:]`
sequentially. -/
def sequential_apply (task : List α → List γ → β) (arg0 : List α)
    (rest : List γ) (concurrent_tasks : Nat) : List β :=
  ((split_in_blocks arg0 concurrent_tasks).map (fun ch => (ch, rest))).map
    (fun ta => task ta.1 ta.2)

/-! ## Letter counting (parallel.py 807-811) and the additive accumulator -/

/-- Sorted association list from characters to positive counts; the
canonical executable model of `AccumDict`/`collections.Counter` used by
the letter-count example. -/
def bumpBy (c : Char) (k : Nat) : List (Char × Nat) → List (Char × Nat)
  | [] => [(c, k)]
  | (d, n) :: rest =>
      if c = d then (d, n + k) :: rest
      else if c < d then (c, k) :: (d, n) :: rest
      else (d, n) :: bumpBy c k rest

/-- Pointwise addition of two count dictionaries, the `operator.add` on
accumulation dictionaries used by `IterResult.reduce` by default. -/
def accumAdd (a b : List (Char × Nat)) : List (Char × Nat) :=
  b.foldl (fun acc e => bumpBy e.1 e.2 acc) a

/-- Translation of `count` (parallel.py 807-811): the letter counter used
as example task; the monitor argument is ignored. -/
def count (word : List Char) (_mon : Unit) : List (Char × Nat) :=
  word.foldl (fun acc c => bumpBy c 1 acc) []

/-! ## The result loop `Starmap._loop` (parallel.py 757-794) -/

/-- A result envelope as inspected by the result loop: the embedded run
identifier `res.mon.calc_id`, the message `res.msg`, the optional
sub-task payload `res.func_args` and the carried value, left abstract. -/
structure LoopEnvelope (τ ρ : Type) where
  calcId : Option Int
  msg : String
  funcArgs : Option τ
  value : ρ
deriving DecidableEq

/-- State of the result loop: the queue of not yet submitted tasks, the
outstanding counter `self.todo`, the tasks submitted so far in submission
order, the number of terminal signals consumed, the values yielded to the
caller and the number of warnings logged. -/
structure LoopState (τ ρ : Type) where
  queue : List τ
  todo : Nat
  submitted : List τ
  ended : Nat
  yielded : List ρ
  warnings : Nat
deriving DecidableEq

/-- Removal of the last element of the queue, as done by
`self.queue.pop()` (parallel.py 775, 778). -/
def popLast (q : List τ) : Option (τ × List τ) :=
  match q.reverse with
  | [] => none
  | x :: rest => some (x, rest.reverse)

/-- Number of tasks currently in flight: submitted and not yet terminated. -/
def LoopState.inflight (st : LoopState τ ρ) : Nat :=
  st.submitted.length - st.ended

/-- One iteration of the receive loop of `Starmap._loop` (parallel.py
768-791) on the envelope `res`: a mismatched run identifier is discarded
with a warning; a terminal signal pops and submits up to two queued
tasks, incrementing `todo` only for the second, or decrements `todo` when
the queue is empty; a nonempty message is logged as a warning; a sub-task
payload is appended to the queue; otherwise the value is yielded. -/
def Starmap.loopStep (calcId : Option Int) (st : LoopState τ ρ)
    (res : LoopEnvelope τ ρ) : LoopState τ ρ :=
  if res.calcId ≠ calcId then { st with warnings := st.warnings + 1 }
  else if res.msg = "TASK_ENDED" then
    match popLast st.queue with
    | none => { st with todo := st.todo - 1, ended := st.ended + 1 }
    | some (t1, q1) =>
        match popLast q1 with
        | none =>
            { st with queue := [], submitted := st.submitted ++ [t1],
                      ended := st.ended + 1 }
        | some (t2, q2) =>
            { st with queue := q2, todo := st.todo + 1,
                      submitted := st.submitted ++ [t1, t2],
                      ended := st.ended + 1 }
  else if res.msg ≠ "" then { st with warnings := st.warnings + 1 }
  else
    match res.funcArgs with
    | some t => { st with queue := st.queue ++ [t] }
    | none => { st with yielded := st.yielded ++ [res.value] }

/-- Start of `Starmap._loop` in the bounded-concurrency path (parallel.py
758-762, 767): `submit_all` has queued every task (parallel.py 737-738);
the loop submits the first `num_cores` of them and sets `todo` to the
number of submitted tasks. -/
def Starmap.loopStart (num_cores : Nat) (tasks : List τ) : LoopState τ ρ :=
  { queue := tasks.drop num_cores,
    todo := (tasks.take num_cores).length,
    submitted := tasks.take num_cores,
    ended := 0, yielded := [], warnings := 0 }

/-- States traversed by the result loop while consuming the envelope
stream `envs`, starting state included. -/
def Starmap.loopStates (calcId : Option Int) (num_cores : Nat)
    (tasks : List τ) (envs : List (LoopEnvelope τ ρ)) : List (LoopState τ ρ) :=
  envs.scanl (Starmap.loopStep calcId) (Starmap.loopStart num_cores tasks)

/-! ## Pool lifecycle `Starmap.init` and `Starmap.shutdown`
(parallel.py 578-611) -/

/-- Process-wide scheduler session state: the pool handle and the live
worker process identifiers (for a process pool), the client handle of the
cluster scheduler, and the current distribution mode.  Handles are
modelled as numbers drawn from the counter `fresh`, so that a newly
spawned pool or client is distinguishable from an old one. -/
structure PoolState where
  pool : Option Nat
  pids : List Nat
  dask_client : Option Nat
  distribute : Option String
  fresh : Nat
deriving DecidableEq

/-- Worker process identifiers of the pool with handle `h`; spawning is
modelled by deriving the identifiers from the fresh handle. -/
def poolPids (h : Nat) : List Nat := [h + 1]

/-- Translation of `Starmap.init` (parallel.py 578-598): the mode is
recorded; a process pool is created only when no pool attribute exists,
and its worker pids recorded; a thread pool is created only when no pool
attribute exists (no pids recorded); in dask mode a client is created
unconditionally. -/
def Starmap.init (mode : String) (st : PoolState) : PoolState :=
  let st1 := { st with distribute := some mode }
  if mode = "processpool" ∧ st1.pool = none then
    { st1 with pool := some st1.fresh, pids := poolPids st1.fresh,
               fresh := st1.fresh + 1 }
  else if mode = "threadpool" ∧ st1.pool = none then
    { st1 with pool := some st1.fresh, fresh := st1.fresh + 1 }
  else if mode = "dask" then
    { st1 with dask_client := some st1.fresh, fresh := st1.fresh + 1 }
  else st1

/-- Translation of `Starmap.shutdown` (parallel.py 600-611): an existing
pool is closed and deleted and the pid list cleared; an existing dask
client is deleted. -/
def Starmap.shutdown (st : PoolState) : PoolState :=
  let st1 := if st.pool.isSome then { st with pool := none, pids := [] } else st
  if st1.dask_client.isSome then { st1 with dask_client := none } else st1

/-! ## Serialization wrapper `Pickled` (parallel.py 227-256)

The payloads handled by `pickle.dumps`/`pickle.loads` are modelled by the
inductive `PyObj` and the encoding by an executable, self-delimiting byte
codec; `Pickled` stores the encoded byte string at construction time,
reports its length, and `unpickle` decodes it back. -/

/-- Picklable payloads: `None`, integers, strings and lists. -/
inductive PyObj where
  | pynone
  | pyint (n : Int)
  | pystr (s : List Char)
  | pylist (xs : List PyObj)

/-- Self-delimiting encoding of a natural number (unary, closed by 1). -/
def encNat (n : Nat) : List Nat :=
  List.replicate n 0 ++ [1]

/-- Decoder for `encNat`; returns the number and the unread remainder. -/
def decNat : List Nat → Option (Nat × List Nat)
  | 1 :: rest => some (0, rest)
  | 0 :: rest => (decNat rest).map (fun p => (p.1 + 1, p.2))
  | _ => none

/-- Encoding of an integer: a sign byte followed by the magnitude. -/
def encInt : Int → List Nat
  | Int.ofNat m => 0 :: encNat m
  | Int.negSucc m => 1 :: encNat m

/-- Decoder for `encInt`. -/
def decInt : List Nat → Option (Int × List Nat)
  | 0 :: rest => (decNat rest).map (fun p => (Int.ofNat p.1, p.2))
  | 1 :: rest => (decNat rest).map (fun p => (Int.negSucc p.1, p.2))
  | _ => none

/-- Encoding of the characters of a string, one code point each. -/
def encChars (s : List Char) : List Nat :=
  match s with
  | [] => []
  | c :: cs => encNat c.toNat ++ encChars cs

/-- Decoder reading exactly `k` characters. -/
def decChars : Nat → List Nat → Option (List Char × List Nat)
  | 0, bs => some ([], bs)
  | k + 1, bs =>
      match decNat bs with
      | none => none
      | some (n, r) =>
          match decChars k r with
          | none => none
          | some (s, r2) => some (Char.ofNat n :: s, r2)

mutual

/-- Encoding of a payload: a tag byte followed by the content. -/
def encObj : PyObj → List Nat
  | PyObj.pynone => [0]
  | PyObj.pyint n => 2 :: encInt n
  | PyObj.pystr s => 3 :: encNat s.length ++ encChars s
  | PyObj.pylist xs => 4 :: encNat xs.length ++ encObjs xs

/-- Encoding of a list of payloads, in order. -/
def encObjs : List PyObj → List Nat
  | [] => []
  | x :: xs => encObj x ++ encObjs xs

end

mutual

/-- Fuel-driven decoder for one payload; the fuel dominates the nesting
depth of the decoded object. -/
def decObj : Nat → List Nat → Option (PyObj × List Nat)
  | 0, _ => none
  | _ + 1, 0 :: rest => some (PyObj.pynone, rest)
  | _ + 1, 2 :: rest => (decInt rest).map (fun p => (PyObj.pyint p.1, p.2))
  | _ + 1, 3 :: rest =>
      match decNat rest with
      | none => none
      | some (k, r) =>
          match decChars k r with
          | none => none
          | some (s, r2) => some (PyObj.pystr s, r2)
  | fuel + 1, 4 :: rest =>
      match decNat rest with
      | none => none
      | some (k, r) =>
          match decObjs fuel k r with
          | none => none
          | some (xs, r2) => some (PyObj.pylist xs, r2)
  | _ + 1, _ => none
termination_by fuel _ => (fuel, 0)

/-- Fuel-driven decoder for exactly `k` payloads. -/
def decObjs : Nat → Nat → List Nat → Option (List PyObj × List Nat)
  | _, 0, bs => some ([], bs)
  | fuel, k + 1, bs =>
      match decObj fuel bs with
      | none => none
      | some (x, r) =>
          match decObjs fuel k r with
          | none => none
          | some (xs, r2) => some (x :: xs, r2)
termination_by fuel k _ => (fuel, k + 1)

end

mutual

/-- Nesting depth of a payload, the fuel needed to decode it. -/
def depthObj : PyObj → Nat
  | PyObj.pylist xs => depthList xs + 1
  | _ => 1

/-- Maximal nesting depth of a list of payloads. -/
def depthList : List PyObj → Nat
  | [] => 0
  | x :: xs => max (depthObj x) (depthList xs)

end

/-- Translation of the `Pickled` wrapper (parallel.py 227-256): the class
name of the payload and the encoded byte string, both computed at
construction time. -/
structure Pickled where
  clsname : String
  pik : List Nat
deriving DecidableEq

/-- Class name of a payload, as stored by `Pickled.__init__`. -/
def pyClsname : PyObj → String
  | PyObj.pynone => "NoneType"
  | PyObj.pyint _ => "int"
  | PyObj.pystr _ => "str"
  | PyObj.pylist _ => "list"

/-- Construction `Pickled(obj)` (parallel.py 237-243). -/
def Pickled.make (obj : PyObj) : Pickled :=
  ⟨pyClsname obj, encObj obj⟩

/-- Translation of `Pickled.__len__` (parallel.py 250-252): the length of
the pickled bytestring. -/
def Pickled.len (p : Pickled) : Nat :=
  p.pik.length

/-- Translation of `Pickled.unpickle` (parallel.py 254-256): decode the
stored byte string back to the payload. -/
def Pickled.unpickle (p : Pickled) : Option PyObj :=
  (decObj (p.pik.length + 1) p.pik).map Prod.fst

/-! ## Identity-keyed memoization `pickle_sequence` (parallel.py 281-300) -/

/-- A Python object reference as seen by `pickle_sequence`: its identity
`id(obj)` and whether it is already a `Pickled` instance. -/
structure PyRef where
  oid : Nat
  isPik : Bool
deriving DecidableEq

/-- An envelope in the output of `pickle_sequence`: either the object
itself (already a `Pickled`, reused unencoded) or a newly created
`Pickled` for the object with the given identity. -/
inductive PickEnv where
  | reused (oid : Nat)
  | fresh (oid : Nat)
deriving DecidableEq

/-- The envelope that `pickle_sequence` associates to an object the first
time its identity is seen (parallel.py 294-298). -/
def canonEnv (o : PyRef) : PickEnv :=
  if o.isPik then PickEnv.reused o.oid else PickEnv.fresh o.oid

/-- Lookup of an object identity in the memoization cache, modelling the
dictionary access `cache[obj_id]` keyed by `id(obj)`. -/
def cacheGet (q : Nat) : List (Nat × PickEnv) → Option PickEnv
  | [] => none
  | (k, e) :: rest => if q = k then some e else cacheGet q rest

/-- Worker of `pickle_sequence` (parallel.py 290-300): the cache maps an
object identity to its envelope; the returned pair holds the output list
and the identities for which a new `Pickled` was created, in creation
order. -/
def pickleSeqGo (cache : List (Nat × PickEnv)) :
    List PyRef → List PickEnv × List Nat
  | [] => ([], [])
  | o :: os =>
      match cacheGet o.oid cache with
      | some e =>
          let r := pickleSeqGo cache os
          (e :: r.1, r.2)
      | none =>
          let e := canonEnv o
          let r := pickleSeqGo ((o.oid, e) :: cache) os
          (e :: r.1, if o.isPik then r.2 else o.oid :: r.2)

/-- Translation of `pickle_sequence` (parallel.py 281-300), starting from
an empty cache. -/
def pickle_sequence (objects : List PyRef) : List PickEnv × List Nat :=
  pickleSeqGo [] objects

/-! ## Helper lemmas -/

theorem popLast_concatL (xs : List τ) (x : τ) :
    popLast (xs ++ [x]) = some (x, xs) := by
  simp [popLast]

theorem applyTaskargs_snd (seq : List α) (rest : List γ) (ct : Nat) :
    ∀ ta ∈ Starmap.applyTaskargs seq rest ct, ta.2 = rest.dropLast := by
  intro ta hta
  simp only [Starmap.applyTaskargs, List.mem_map] at hta
  obtain ⟨blk, _, rfl⟩ := hta
  rfl

theorem insertDesc_perm (w : α → ℚ) (x : α) (l : List α) :
    (insertDesc w x l).Perm (x :: l) := by
  induction l with
  | nil => simp [insertDesc]
  | cons y ys ih =>
    simp only [insertDesc]
    split_ifs with h
    · exact List.Perm.refl _
    · exact (ih.cons y).trans (List.Perm.swap x y ys)

theorem splitSorted_perm (l : List α) (w : α → ℚ) :
    (splitSorted l w).Perm l := by
  induction l with
  | nil => exact List.Perm.refl _
  | cons x xs ih =>
    simp only [splitSorted, List.foldr_cons]
    exact (insertDesc_perm w x _).trans (ih.cons x)

theorem insertDesc_sorted (w : α → ℚ) (x : α) (l : List α)
    (h : l.Pairwise (fun a b => w b ≤ w a)) :
    (insertDesc w x l).Pairwise (fun a b => w b ≤ w a) := by
  induction l with
  | nil => simp [insertDesc]
  | cons y ys ih =>
    simp only [insertDesc]
    rcases List.pairwise_cons.mp h with ⟨hy, hys⟩
    split_ifs with hlt
    · refine List.pairwise_cons.mpr ⟨?_, h⟩
      intro z hz
      rcases List.mem_cons.mp hz with rfl | hz2
      · exact le_of_lt hlt
      · exact le_trans (hy z hz2) (le_of_lt hlt)
    · refine List.pairwise_cons.mpr ⟨?_, ih hys⟩
      intro z hz
      have hz2 : z = x ∨ z ∈ ys := by
        have hmem := (insertDesc_perm w x ys).mem_iff.mp hz
        simpa using hmem
      rcases hz2 with rfl | hz2
      · exact not_lt.mp hlt
      · exact hy z hz2

theorem splitSorted_sorted (l : List α) (w : α → ℚ) :
    (splitSorted l w).Pairwise (fun a b => w b ≤ w a) := by
  induction l with
  | nil => simp [splitSorted]
  | cons x xs ih =>
    simp only [splitSorted, List.foldr_cons]
    exact insertDesc_sorted w x _ ih

theorem splitSorted_head_le (l : List α) (w : α → ℚ) (first : α)
    (rest : List α) (h : splitSorted l w = first :: rest) :
    ∀ y ∈ l, w y ≤ w first := by
  intro y hy
  have hmem : y ∈ first :: rest := by
    rw [← h]
    exact (splitSorted_perm l w).mem_iff.mpr hy
  rcases List.mem_cons.mp hmem with rfl | hmem2
  · exact le_refl _
  · have hp := splitSorted_sorted l w
    rw [h] at hp
    exact List.rel_of_pairwise_cons hp hmem2

theorem blockSplitGo_policy (W : ℚ) (w : α → ℚ) :
    ∀ (items cur : List α) (acc : ℚ),
      acc = (cur.map w).sum →
      (cur ≠ [] → ((cur.map w).sum ≤ W ∨ ∃ x, cur = [x])) →
      ∀ b ∈ blockSplitGo W w items cur acc,
        (b.map w).sum ≤ W ∨ ∃ x, b = [x] := by
  intro items
  induction items with
  | nil =>
    intro cur acc _ hcur b hb
    cases cur with
    | nil => simp [blockSplitGo] at hb
    | cons c cs =>
      simp only [blockSplitGo, List.mem_singleton] at hb
      subst hb
      rcases hcur (by simp) with hle | ⟨x, hx⟩
      · left
        rw [List.map_reverse, List.sum_reverse]
        exact hle
      · right
        exact ⟨x, by rw [hx]; rfl⟩
  | cons x xs ih =>
    intro cur acc hacc hcur b hb
    cases cur with
    | nil =>
      simp only [blockSplitGo] at hb
      exact ih [x] (w x) (by simp) (fun _ => Or.inr ⟨x, rfl⟩) b hb
    | cons c cs =>
      simp only [blockSplitGo] at hb
      split_ifs at hb with hgt
      · rcases List.mem_cons.mp hb with rfl | hb2
        · rcases hcur (by simp) with hle | ⟨z, hz⟩
          · left
            rw [List.map_reverse, List.sum_reverse]
            exact hle
          · right
            exact ⟨z, by rw [hz]; rfl⟩
        · exact ih [x] (w x) (by simp) (fun _ => Or.inr ⟨x, rfl⟩) b hb2
      · refine ih (x :: c :: cs) (acc + w x) ?_ ?_ b hb
        · rw [hacc]
          simp [add_comm]
        · intro _
          left
          have hle : acc + w x ≤ W := not_lt.mp hgt
          have hacc2 : acc = w c + (List.map w cs).sum := by simpa using hacc
          simp only [List.map_cons, List.sum_cons]
          linarith

theorem blockSplitGo_flatten (W : ℚ) (w : α → ℚ) :
    ∀ (items cur : List α) (acc : ℚ),
      (blockSplitGo W w items cur acc).flatten = cur.reverse ++ items := by
  intro items
  induction items with
  | nil =>
    intro cur acc
    cases cur <;> simp [blockSplitGo]
  | cons x xs ih =>
    intro cur acc
    cases cur with
    | nil => simp [blockSplitGo, ih [x]]
    | cons c cs =>
      simp only [blockSplitGo]
      split_ifs with hgt
      · simp [ih [x]]
      · rw [ih (x :: c :: cs)]
        simp

theorem blockSplitGo_ne_nil (W : ℚ) (w : α → ℚ) :
    ∀ (items cur : List α) (acc : ℚ), (items ≠ [] ∨ cur ≠ []) →
      blockSplitGo W w items cur acc ≠ [] := by
  intro items
  induction items with
  | nil =>
    intro cur acc h
    rcases h with h | h
    · exact absurd rfl h
    · cases cur with
      | nil => exact absurd rfl h
      | cons c cs => simp [blockSplitGo]
  | cons x xs ih =>
    intro cur acc _
    cases cur with
    | nil =>
      simp only [blockSplitGo]
      exact ih [x] (w x) (Or.inr (by simp))
    | cons c cs =>
      simp only [blockSplitGo]
      split_ifs with hgt
      · simp
      · exact ih (x :: c :: cs) (acc + w x) (Or.inr (by simp))

/-! ## Claim C2: exception transport through Result.get -/

/-- C2: for every worker-side exception captured in a failure envelope,
unwrapping the envelope at the orchestrator re-raises an exception of the
original exception type whose message contains the original exception
text and the rendered stack trace, except that a subclass of `KeyError`
is remapped to a `RuntimeError` carrying the original message. -/
theorem result_get_reraises (r : ResultFail) (h : r.tb_str ≠ []) :
    ∃ e : RaisedExc,
      r.get = Except.error e ∧
      e.clsname = (if r.val.isKeyErrorSub then "RuntimeError" else r.val.clsname) ∧
      (∃ u v, e.message = u ++ r.val.text ++ v) ∧
      (∃ u v, e.message = u ++ r.tb_str ++ v) := by
  refine ⟨⟨if r.val.isKeyErrorSub then "RuntimeError" else r.val.clsname,
          '\n' :: (r.tb_str ++ r.val.clsname.toList ++ ':' :: ' ' :: r.val.text)⟩,
         ?_, rfl, ?_, ?_⟩
  · unfold ResultFail.get
    rw [if_neg h]
    by_cases hk : r.val.isKeyErrorSub <;> simp [hk]
  · exact ⟨'\n' :: (r.tb_str ++ r.val.clsname.toList ++ [':', ' ']), [], by simp⟩
  · exact ⟨['\n'], r.val.clsname.toList ++ ':' :: ' ' :: r.val.text, by simp⟩

/-- Witness for C2 at a concrete ValueError failure envelope. -/
theorem result_get_reraises_witness :
    (['t', 'b'] : List Char) ≠ [] ∧
    ∃ e : RaisedExc,
      (ResultFail.get ⟨⟨"ValueError", false, ['x']⟩, ['t', 'b']⟩) = Except.error e ∧
      e.clsname = (if (false : Bool) then "RuntimeError" else "ValueError") ∧
      (∃ u v, e.message = u ++ ['x'] ++ v) ∧
      (∃ u v, e.message = u ++ ['t', 'b'] ++ v) :=
  ⟨by decide, result_get_reraises ⟨⟨"ValueError", false, ['x']⟩, ['t', 'b']⟩ (by decide)⟩

/-! ## Claim C5: memory thresholds in the safe invocation wrapper -/

/-- C5 counterexample: with soft threshold 80, hard threshold 90 and 99
percent of memory used, `safely_call` raises `MemoryError` and sends no
envelope at all, refuting the claim that the invocation aborts with an
out-of-memory failure envelope. -/
theorem safely_call_oom_counterexample :
    safely_call_sent 80 90 99 [()] = Except.error ⟨99, 90⟩ ∧
    ¬ ∃ sent, safely_call_sent 80 90 99 [()] = Except.ok sent := by
  have h : safely_call_sent (ρ := Unit) 80 90 99 [()] = Except.error ⟨99, 90⟩ := by
    norm_num [safely_call_sent, check_mem_usage]
  refine ⟨h, ?_⟩
  rintro ⟨sent, hs⟩
  rw [h] at hs
  cases hs

/-- C5 amended: above the hard threshold the invocation aborts by raising
`MemoryError`, sending no envelope; between the soft and the hard
threshold a dedicated warning envelope is sent once, before the result
envelopes, and execution continues; below the soft threshold only the
result envelopes are sent. -/
theorem safely_call_mem_cases (soft hard used : ℚ) (rs : List ρ)
    (hconfig : soft ≤ hard) :
    (hard < used → safely_call_sent soft hard used rs = Except.error ⟨used, hard⟩) ∧
    (soft < used → used ≤ hard →
      safely_call_sent soft hard used rs =
        Except.ok (SentEnvelope.warning used :: rs.map SentEnvelope.taskResult)) ∧
    (used ≤ soft → safely_call_sent soft hard used rs =
        Except.ok (rs.map SentEnvelope.taskResult)) := by
  refine ⟨?_, ?_, ?_⟩
  · intro h1
    simp [safely_call_sent, check_mem_usage, h1]
  · intro h1 h2
    have hn : ¬ hard < used := not_lt.mpr h2
    simp [safely_call_sent, check_mem_usage, hn, h1]
  · intro h1
    have hn : ¬ hard < used := not_lt.mpr (le_trans h1 hconfig)
    have hs : ¬ soft < used := not_lt.mpr h1
    simp [safely_call_sent, check_mem_usage, hn, hs]

/-- Witness for C5 at soft=50, hard=90, used=70: the warning envelope is
sent first and execution continues. -/
theorem safely_call_mem_witness :
    ((50 : ℚ) ≤ 90 ∧ (50 : ℚ) < 70 ∧ (70 : ℚ) ≤ 90) ∧
    safely_call_sent 50 90 70 [()] =
      Except.ok (SentEnvelope.warning 70 :: [()].map SentEnvelope.taskResult) :=
  ⟨⟨by norm_num, by norm_num, by norm_num⟩,
   (safely_call_mem_cases 50 90 70 [()] (by norm_num)).2.1 (by norm_num) (by norm_num)⟩

/-! ## Claim C6: stale-run results are discarded with a warning -/

/-- C6: a result envelope whose embedded run identifier does not match
the current run is discarded by the result loop with a logged warning:
it is never yielded, the queue, the outstanding counter and the submitted
tasks are untouched, and the run does not fail. -/
theorem loop_discards_stale (calcId : Option Int) (st : LoopState τ ρ)
    (res : LoopEnvelope τ ρ) (h : res.calcId ≠ calcId) :
    (Starmap.loopStep calcId st res).yielded = st.yielded ∧
    (Starmap.loopStep calcId st res).warnings = st.warnings + 1 ∧
    (Starmap.loopStep calcId st res).todo = st.todo ∧
    (Starmap.loopStep calcId st res).queue = st.queue ∧
    (Starmap.loopStep calcId st res).submitted = st.submitted ∧
    (Starmap.loopStep calcId st res).ended = st.ended := by
  simp [Starmap.loopStep, h]

/-- Witness for C6: a stale envelope from job 5 arriving while job 1 is
running only increments the warning counter. -/
theorem loop_discards_stale_witness :
    ((some 5 : Option Int) ≠ some 1) ∧
    (Starmap.loopStep (some 1) (⟨[1], 1, [0], 0, [], 0⟩ : LoopState Nat Unit)
        ⟨some 5, "", none, ()⟩).yielded = [] ∧
    (Starmap.loopStep (some 1) (⟨[1], 1, [0], 0, [], 0⟩ : LoopState Nat Unit)
        ⟨some 5, "", none, ()⟩).warnings = 0 + 1 ∧
    (Starmap.loopStep (some 1) (⟨[1], 1, [0], 0, [], 0⟩ : LoopState Nat Unit)
        ⟨some 5, "", none, ()⟩).todo = 1 ∧
    (Starmap.loopStep (some 1) (⟨[1], 1, [0], 0, [], 0⟩ : LoopState Nat Unit)
        ⟨some 5, "", none, ()⟩).queue = [1] ∧
    (Starmap.loopStep (some 1) (⟨[1], 1, [0], 0, [], 0⟩ : LoopState Nat Unit)
        ⟨some 5, "", none, ()⟩).submitted = [0] ∧
    (Starmap.loopStep (some 1) (⟨[1], 1, [0], 0, [], 0⟩ : LoopState Nat Unit)
        ⟨some 5, "", none, ()⟩).ended = 0 :=
  ⟨by decide, loop_discards_stale (some 1) ⟨[1], 1, [0], 0, [], 0⟩
    ⟨some 5, "", none, ()⟩ (by decide)⟩

/-! ## Claim C1: admission control in the bounded-concurrency loop -/

/-- C1 counterexample: with num_cores = 2 and 5 chunks, all results being
terminal signals of the current run, the first signal triggers two
submissions and the in-flight count reaches 3, refuting both the
one-submission-per-signal rule and the num_cores bound. -/
theorem loop_admission_counterexample :
    ¬ (∀ st ∈ Starmap.loopStates (some 1) 2 [0, 1, 2, 3, 4]
          (List.replicate 5 (⟨some 1, "TASK_ENDED", none, ()⟩ : LoopEnvelope Nat Unit)),
        st.inflight ≤ 2) ∧
    (Starmap.loopStates (some 1) 2 [0, 1, 2, 3, 4]
        (List.replicate 5 (⟨some 1, "TASK_ENDED", none, ()⟩ : LoopEnvelope Nat Unit))).map
      LoopState.inflight = [2, 3, 3, 2, 1, 0] ∧
    (Starmap.loopStates (some 1) 2 [0, 1, 2, 3, 4]
        (List.replicate 5 (⟨some 1, "TASK_ENDED", none, ()⟩ : LoopEnvelope Nat Unit))).map
      (fun st => st.submitted.length) = [2, 4, 5, 5, 5, 5] := by
  decide

/-- C1 amended: the loop initially submits the first num_cores queued
tasks; on each matching terminal signal it submits min 2 (queue length)
queued tasks, not exactly one, so the number of tasks in flight can
exceed num_cores: with num_cores = 2 and 5 chunks the in-flight maximum
is 3. -/
theorem loop_admission (num_cores : Nat) (tasks : List τ) (calcId : Option Int)
    (st : LoopState τ ρ) (res : LoopEnvelope τ ρ)
    (hmatch : res.calcId = calcId) (hend : res.msg = "TASK_ENDED") :
    ((Starmap.loopStart num_cores tasks : LoopState τ ρ).submitted = tasks.take num_cores ∧
     (Starmap.loopStart num_cores tasks : LoopState τ ρ).queue = tasks.drop num_cores) ∧
    (Starmap.loopStep calcId st res).submitted.length
        = st.submitted.length + min 2 st.queue.length ∧
    ((Starmap.loopStates (some 1) 2 [0, 1, 2, 3, 4]
        (List.replicate 5 (⟨some 1, "TASK_ENDED", none, ()⟩ : LoopEnvelope Nat Unit))).map
      LoopState.inflight).maximum = some 3 := by
  refine ⟨⟨rfl, rfl⟩, ?_, by decide⟩
  unfold Starmap.loopStep
  rw [if_neg (by simp [hmatch]), if_pos hend]
  rcases List.eq_nil_or_concat st.queue with hq | ⟨q1, t1, hq⟩
  · rw [hq]
    simp [popLast]
  · rw [List.concat_eq_append] at hq
    rw [hq, popLast_concatL]
    dsimp only
    rcases List.eq_nil_or_concat q1 with hq1 | ⟨q2, t2, hq1⟩
    · rw [hq1]
      simp [popLast]
    · rw [List.concat_eq_append] at hq1
      rw [hq1, popLast_concatL]
      dsimp only
      simp only [List.length_append, List.length_cons, List.length_nil]
      omega

/-- Witness for C1 at a concrete state with two queued tasks: the
matching terminal signal submits two of them. -/
theorem loop_admission_witness :
    ((some 2 : Option Int) = some 2 ∧ ("TASK_ENDED" : String) = "TASK_ENDED") ∧
    (((Starmap.loopStart 1 [10, 20, 30] : LoopState Nat Unit).submitted
          = [10, 20, 30].take 1 ∧
      (Starmap.loopStart 1 [10, 20, 30] : LoopState Nat Unit).queue
          = [10, 20, 30].drop 1) ∧
     (Starmap.loopStep (some 2) (⟨[7, 8], 1, [10], 0, [], 0⟩ : LoopState Nat Unit)
          ⟨some 2, "TASK_ENDED", none, ()⟩).submitted.length
        = ([10] : List Nat).length + min 2 ([7, 8] : List Nat).length ∧
     ((Starmap.loopStates (some 1) 2 [0, 1, 2, 3, 4]
        (List.replicate 5 (⟨some 1, "TASK_ENDED", none, ()⟩ : LoopEnvelope Nat Unit))).map
      LoopState.inflight).maximum = some 3) :=
  ⟨⟨rfl, rfl⟩, loop_admission 1 [10, 20, 30] (some 2) ⟨[7, 8], 1, [10], 0, [], 0⟩
    ⟨some 2, "TASK_ENDED", none, ()⟩ rfl rfl⟩

/-! ## Claim C4: the adaptive re-splitter split_task -/

/-- C4 counterexample: with elements of weight 2 and 1, a duration budget
of 3 and a measured time of 10 for the heaviest element, the single
remaining element is predicted to take 5 > 3, so the carved chunks are
not all predicted to run within the duration budget. -/
theorem split_task_counterexample :
    split_task_blocks [(2 : ℚ), 1] id 3 10 = [[1]] ∧
    ¬ (∀ b ∈ split_task_blocks [(2 : ℚ), 1] id 3 10,
          (b.map (fun el => id el * ((10 : ℚ) / id 2))).sum ≤ 3) := by
  have h1 : splitSorted [(2 : ℚ), 1] id = [2, 1] := by
    norm_num [splitSorted, insertDesc]
  have hblocks : split_task_blocks [(2 : ℚ), 1] id 3 10 = [[1]] := by
    unfold split_task_blocks
    rw [h1]
    norm_num [block_splitter, blockSplitGo]
  refine ⟨hblocks, ?_⟩
  intro hall
  have h5 := hall [1] (by rw [hblocks]; exact List.mem_singleton.mpr rfl)
  norm_num at h5

/-- C4 amended: split_task fails loudly on an empty sequence, yields only
the direct result for a singleton, and otherwise sorts by descending
weight, runs the heaviest element alone first and yields its result,
carves the remaining elements into chunks using the measured rate, yields
every chunk but the last as a resubmitted sub-task and runs the last one
inline; each carved chunk is predicted to run within the duration budget
except that an element whose own predicted time exceeds the budget forms
an oversize singleton chunk. -/
theorem split_task_spec (elements : List α) (weight : α → ℚ)
    (duration elapsed : ℚ) (first : α) (rest : List α)
    (hsorted : splitSorted elements weight = first :: rest)
    (hrest : rest ≠ []) :
    (split_task ([] : List α) weight duration elapsed = none) ∧
    (∀ x : α, split_task [x] weight duration elapsed = some [SplitYield.res [x]]) ∧
    (∀ y ∈ elements, weight y ≤ weight first) ∧
    split_task elements weight duration elapsed
      = some (SplitYield.res [first] ::
          ((split_task_blocks elements weight duration elapsed).dropLast.map
              SplitYield.subtask ++
           [SplitYield.res
              ((split_task_blocks elements weight duration elapsed).getLastD [])])) ∧
    split_task_blocks elements weight duration elapsed ≠ [] ∧
    (split_task_blocks elements weight duration elapsed).flatten = rest ∧
    (∀ b ∈ split_task_blocks elements weight duration elapsed,
        (b.map (fun el => weight el * (elapsed / weight first))).sum ≤ duration ∨
        ∃ x, b = [x]) := by
  obtain ⟨r, rs, rfl⟩ := List.exists_cons_of_ne_nil hrest
  have hblocks : split_task_blocks elements weight duration elapsed
      = block_splitter (r :: rs) duration
          (fun el => weight el * (elapsed / weight first)) := by
    unfold split_task_blocks
    rw [hsorted]
  refine ⟨rfl, fun x => rfl, splitSorted_head_le elements weight first (r :: rs) hsorted,
         ?_, ?_, ?_, ?_⟩
  · unfold split_task
    rw [hsorted]
  · rw [hblocks]
    exact blockSplitGo_ne_nil duration _ (r :: rs) [] 0 (Or.inl (by simp))
  · rw [hblocks]
    have hj := blockSplitGo_flatten duration
      (fun el => weight el * (elapsed / weight first)) (r :: rs) [] 0
    simpa [block_splitter] using hj
  · rw [hblocks]
    exact blockSplitGo_policy duration _ (r :: rs) [] 0 (by simp)
      (fun hc => absurd rfl hc)

/-- Witness for C4 at elements of weight 2 and 1, duration budget 3 and
measured time 10. -/
theorem split_task_spec_witness :
    (splitSorted [(2 : ℚ), 1] id = [2, 1] ∧ ([1] : List ℚ) ≠ []) ∧
    ((split_task ([] : List ℚ) id 3 10 = none) ∧
     (∀ x : ℚ, split_task [x] id 3 10 = some [SplitYield.res [x]]) ∧
     (∀ y ∈ [(2 : ℚ), 1], id y ≤ id 2) ∧
     split_task [(2 : ℚ), 1] id 3 10
       = some (SplitYield.res [2] ::
           ((split_task_blocks [(2 : ℚ), 1] id 3 10).dropLast.map
               SplitYield.subtask ++
            [SplitYield.res ((split_task_blocks [(2 : ℚ), 1] id 3 10).getLastD [])])) ∧
     split_task_blocks [(2 : ℚ), 1] id 3 10 ≠ [] ∧
     (split_task_blocks [(2 : ℚ), 1] id 3 10).flatten = [1] ∧
     (∀ b ∈ split_task_blocks [(2 : ℚ), 1] id 3 10,
         (b.map (fun el => id el * ((10 : ℚ) / id 2))).sum ≤ 3 ∨
         ∃ x, b = [x])) :=
  ⟨⟨by norm_num [splitSorted, insertDesc], by simp⟩,
   split_task_spec [(2 : ℚ), 1] id 3 10 2 [1]
     (by norm_num [splitSorted, insertDesc]) (by simp)⟩

/-! ## Claim C3: reduce correctness under mode no -/

/-- C3: under distribution mode no, results arrive in submission order
and apply-then-reduce returns the same accumulator as the sequential fold
over the same chunks of the same split, for a pure task whose value does
not depend on the trailing monitor argument; in particular the letter
counts of hello and world reduce to the expected dictionary in either
arrival order. -/
theorem starmap_apply_reduce_no (task : List α → List γ → β)
    (fixed : List γ) (m0 mon : γ) (arg0 : List α) (ct : Nat)
    (agg : β → β → β) (acc : β)
    (hpure : ∀ blk m, task blk (fixed ++ [m]) = task blk (fixed ++ [m0])) :
    IterResult.reduce agg acc
        (Starmap.applyResults task true mon arg0 (fixed ++ [m0]) ct)
      = IterResult.reduce agg acc (sequential_apply task arg0 (fixed ++ [m0]) ct) ∧
    IterResult.reduce accumAdd []
        [count ['h', 'e', 'l', 'l', 'o'] (), count ['w', 'o', 'r', 'l', 'd'] ()]
      = [('d', 1), ('e', 1), ('h', 1), ('l', 3), ('o', 2), ('r', 1), ('w', 1)] ∧
    IterResult.reduce accumAdd []
        [count ['w', 'o', 'r', 'l', 'd'] (), count ['h', 'e', 'l', 'l', 'o'] ()]
      = [('d', 1), ('e', 1), ('h', 1), ('l', 3), ('o', 2), ('r', 1), ('w', 1)] := by
  refine ⟨?_, by decide, by decide⟩
  unfold IterResult.reduce Starmap.applyResults sequential_apply Starmap.applyTaskargs
  rw [List.dropLast_concat]
  simp only [List.map_map, Function.comp_def, if_true]
  have hmaps :
      ((split_in_blocks arg0 ct).map fun blk => task blk (fixed ++ [mon]))
        = (split_in_blocks arg0 ct).map fun blk => task blk (fixed ++ [m0]) :=
    List.map_congr_left (fun blk _ => hpure blk mon)
  rw [hmaps]

/-- Witness for C3 with a concrete pure task summing its chunk and
counting its fixed arguments. -/
theorem starmap_apply_reduce_no_witness :
    IterResult.reduce (fun a b => a + b) 0
        (Starmap.applyResults (fun blk extra => blk.sum + extra.length) true 1
          [1, 2, 3] ([9] ++ [0]) 2)
      = IterResult.reduce (fun a b => a + b) 0
          (sequential_apply (fun blk extra => blk.sum + extra.length)
            [1, 2, 3] ([9] ++ [0]) 2) ∧
    IterResult.reduce accumAdd []
        [count ['h', 'e', 'l', 'l', 'o'] (), count ['w', 'o', 'r', 'l', 'd'] ()]
      = [('d', 1), ('e', 1), ('h', 1), ('l', 3), ('o', 2), ('r', 1), ('w', 1)] ∧
    IterResult.reduce accumAdd []
        [count ['w', 'o', 'r', 'l', 'd'] (), count ['h', 'e', 'l', 'l', 'o'] ()]
      = [('d', 1), ('e', 1), ('h', 1), ('l', 3), ('o', 2), ('r', 1), ('w', 1)] :=
  starmap_apply_reduce_no (fun blk extra => blk.sum + extra.length)
    [9] 0 1 [1, 2, 3] 2 (fun a b => a + b) 0 (fun _ _ => rfl)

/-! ## Claim C9: idempotence of Starmap.init -/

/-- C9 counterexample: in dask mode a second init with the same mode
creates a fresh client handle, so a second init with the same
distribution mode is not a no-op on the worker-pool state. -/
theorem starmap_init_dask_counterexample :
    (Starmap.init "dask" (Starmap.init "dask" ⟨none, [], none, none, 0⟩)).dask_client ≠
      (Starmap.init "dask" ⟨none, [], none, none, 0⟩).dask_client ∧
    Starmap.init "dask" (Starmap.init "dask" ⟨none, [], none, none, 0⟩) ≠
      Starmap.init "dask" ⟨none, [], none, none, 0⟩ := by
  decide

/-- C9 amended: for every mode except dask a second init with the same
mode is a no-op on the worker-pool state (pool handle, worker pids and
the fresh-handle counter unchanged, so nothing is spawned); shutdown
removes the pool and clears the pids; a later init creates a fresh pool. -/
theorem starmap_init_idempotent (mode : String) (st : PoolState)
    (h : mode ≠ "dask") :
    Starmap.init mode (Starmap.init mode st) = Starmap.init mode st ∧
    (Starmap.shutdown st).pool = none ∧
    (st.pool.isSome = true → (Starmap.shutdown st).pids = []) ∧
    (Starmap.init "processpool" (Starmap.shutdown st)).pool
        = some (Starmap.shutdown st).fresh := by
  refine ⟨?_, ?_, ?_, ?_⟩
  · by_cases h1 : mode = "processpool"
    · subst h1
      by_cases hp : st.pool = none <;>
        cases st <;> simp_all [Starmap.init]
    · by_cases h2 : mode = "threadpool"
      · subst h2
        by_cases hp : st.pool = none
        · cases st
          simp_all [Starmap.init]
        · cases st
          simp_all [Starmap.init]
      · cases st
        simp_all [Starmap.init]
  · unfold Starmap.shutdown
    by_cases hp : st.pool.isSome <;> by_cases hd : st.dask_client.isSome <;>
      simp_all [Option.not_isSome_iff_eq_none]
  · intro hp
    unfold Starmap.shutdown
    simp [hp]
    by_cases hd : st.dask_client.isSome <;> simp [hd]
  · unfold Starmap.init
    have hpool : (Starmap.shutdown st).pool = none := by
      unfold Starmap.shutdown
      by_cases hp : st.pool.isSome <;> by_cases hd : st.dask_client.isSome <;>
        simp_all [Option.not_isSome_iff_eq_none]
    simp [hpool]

/-- Witness for C9: a second processpool init leaves the session state
untouched. -/
theorem starmap_init_idempotent_witness :
    (("processpool" : String) ≠ "dask") ∧
    (Starmap.init "processpool"
        (Starmap.init "processpool" ⟨none, [], none, none, 0⟩)
      = Starmap.init "processpool" ⟨none, [], none, none, 0⟩ ∧
     (Starmap.shutdown ⟨none, [], none, none, 0⟩).pool = none ∧
     ((⟨none, [], none, none, 0⟩ : PoolState).pool.isSome = true →
        (Starmap.shutdown ⟨none, [], none, none, 0⟩).pids = []) ∧
     (Starmap.init "processpool" (Starmap.shutdown ⟨none, [], none, none, 0⟩)).pool
        = some (Starmap.shutdown (⟨none, [], none, none, 0⟩ : PoolState)).fresh) :=
  ⟨by decide, starmap_init_idempotent "processpool" ⟨none, [], none, none, 0⟩ (by decide)⟩

/-! ## Claim C7: round trip of the serialization wrapper -/

theorem decNat_encNat (n : Nat) (rest : List Nat) :
    decNat (encNat n ++ rest) = some (n, rest) := by
  induction n with
  | zero => simp [encNat, decNat]
  | succ m ih =>
    have hshape : encNat (m + 1) ++ rest = 0 :: (encNat m ++ rest) := by
      simp [encNat, List.replicate_succ]
    rw [hshape]
    simp [decNat, ih]

theorem decInt_encInt (n : Int) (rest : List Nat) :
    decInt (encInt n ++ rest) = some (n, rest) := by
  cases n with
  | ofNat m => simp [encInt, decInt, decNat_encNat]
  | negSucc m => simp [encInt, decInt, decNat_encNat]

theorem decChars_encChars (s : List Char) (rest : List Nat) :
    decChars s.length (encChars s ++ rest) = some (s, rest) := by
  induction s with
  | nil => simp [encChars, decChars]
  | cons c cs ih =>
    simp only [encChars, List.length_cons, List.append_assoc, decChars]
    simp [decNat_encNat, ih, Char.ofNat_toNat]

mutual

theorem decObj_enc : ∀ (p : PyObj) (fuel : Nat) (rest : List Nat),
    depthObj p ≤ fuel → decObj fuel (encObj p ++ rest) = some (p, rest)
  | PyObj.pynone, fuel, rest, h => by
      cases fuel with
      | zero => simp [depthObj] at h
      | succ f => simp [encObj, decObj]
  | PyObj.pyint n, fuel, rest, h => by
      cases fuel with
      | zero => simp [depthObj] at h
      | succ f => simp [encObj, decObj, decInt_encInt]
  | PyObj.pystr s, fuel, rest, h => by
      cases fuel with
      | zero => simp [depthObj] at h
      | succ f =>
        simp only [encObj, List.cons_append, List.append_assoc, decObj]
        simp [decNat_encNat, decChars_encChars]
  | PyObj.pylist xs, fuel, rest, h => by
      cases fuel with
      | zero => simp [depthObj] at h
      | succ f =>
        have hd : depthList xs ≤ f := by
          simp only [depthObj] at h
          omega
        have hrec := decObjs_enc xs f rest hd
        simp only [encObj, List.cons_append, List.append_assoc, decObj]
        simp [decNat_encNat, hrec]

theorem decObjs_enc : ∀ (xs : List PyObj) (fuel : Nat) (rest : List Nat),
    depthList xs ≤ fuel →
      decObjs fuel xs.length (encObjs xs ++ rest) = some (xs, rest)
  | [], fuel, rest, _ => by simp [encObjs, decObjs]
  | x :: xs, fuel, rest, h => by
      have hx : depthObj x ≤ fuel := by
        simp only [depthList] at h
        omega
      have hxs : depthList xs ≤ fuel := by
        simp only [depthList] at h
        omega
      have h1 := decObj_enc x fuel (encObjs xs ++ rest) hx
      have h2 := decObjs_enc xs fuel rest hxs
      simp only [encObjs, List.length_cons, List.append_assoc, decObjs]
      simp [h1, h2]

end

theorem encObj_length_pos : ∀ (p : PyObj), 1 ≤ (encObj p).length := by
  intro p
  cases p <;> simp [encObj]

mutual

theorem depthObj_le_enc : ∀ (p : PyObj), depthObj p ≤ (encObj p).length
  | PyObj.pynone => by simp [depthObj, encObj]
  | PyObj.pyint n => by simp [depthObj, encObj]
  | PyObj.pystr s => by simp [depthObj, encObj]
  | PyObj.pylist xs => by
      have h := depthList_le_enc xs
      simp only [depthObj, encObj, List.length_cons, List.length_append,
        encNat, List.length_replicate]
      omega

theorem depthList_le_enc : ∀ (xs : List PyObj),
    depthList xs ≤ (encObjs xs).length + 1
  | [] => by simp [depthList, encObjs]
  | x :: xs => by
      have h1 := depthObj_le_enc x
      have h2 := depthList_le_enc xs
      simp only [depthList, encObjs, List.length_append]
      omega

end

/-- C7: for every payload p, the serialization envelope round-trips
(Pickled(p).unpickle() returns p) and len(Pickled(p)) equals the byte
length of the encoded form of p. -/
theorem pickled_roundtrip (p : PyObj) :
    Pickled.unpickle (Pickled.make p) = some p ∧
    Pickled.len (Pickled.make p) = (encObj p).length := by
  constructor
  · unfold Pickled.unpickle Pickled.make
    have h := decObj_enc p ((encObj p).length + 1) []
      (le_trans (depthObj_le_enc p) (by omega))
    rw [List.append_nil] at h
    simp [h]
  · rfl

/-! ## Claim C8: identity-keyed memoization of pickle_sequence -/

theorem cacheGet_cons (q k : Nat) (e : PickEnv) (cache : List (Nat × PickEnv)) :
    cacheGet q ((k, e) :: cache) = if q = k then some e else cacheGet q cache := rfl

theorem canonEnv_congr (a b : PyRef) (hoid : a.oid = b.oid)
    (hpik : a.isPik = b.isPik) : canonEnv a = canonEnv b := by
  unfold canonEnv
  rw [hoid, hpik]

theorem pickleSeqGo_fst_map : ∀ (os : List PyRef) (cache : List (Nat × PickEnv)),
    (∀ q e, cacheGet q cache = some e → ∀ o ∈ os, o.oid = q → e = canonEnv o) →
    (∀ a ∈ os, ∀ b ∈ os, a.oid = b.oid → a.isPik = b.isPik) →
    (pickleSeqGo cache os).1 = os.map canonEnv := by
  intro os
  induction os with
  | nil => intro cache _ _; rfl
  | cons o os ih =>
    intro cache hcache hwf
    simp only [pickleSeqGo]
    cases hc : cacheGet o.oid cache with
    | some e =>
      have he : e = canonEnv o := hcache o.oid e hc o (List.mem_cons_self o os) rfl
      have hrest := ih cache
        (fun q e2 hq o2 ho2 hoid => hcache q e2 hq o2 (List.mem_cons_of_mem o ho2) hoid)
        (fun a ha b hb => hwf a (List.mem_cons_of_mem o ha) b (List.mem_cons_of_mem o hb))
      simp [he, hrest]
    | none =>
      have hrest := ih ((o.oid, canonEnv o) :: cache) ?_ ?_
      · simp [hrest]
      · intro q e2 hq o2 ho2 hoid
        rw [cacheGet_cons] at hq
        by_cases hqo : q = o.oid
        · rw [if_pos hqo] at hq
          cases hq
          refine canonEnv_congr o o2 ?_ ?_
          · rw [hoid, hqo]
          · exact hwf o (List.mem_cons_self o os) o2 (List.mem_cons_of_mem o ho2)
              (by rw [hoid, hqo])
        · rw [if_neg hqo] at hq
          exact hcache q e2 hq o2 (List.mem_cons_of_mem o ho2) hoid
      · exact fun a ha b hb => hwf a (List.mem_cons_of_mem o ha) b (List.mem_cons_of_mem o hb)

theorem pickleSeqGo_created : ∀ (os : List PyRef) (cache : List (Nat × PickEnv)),
    (∀ a ∈ os, ∀ b ∈ os, a.oid = b.oid → a.isPik = b.isPik) →
    (pickleSeqGo cache os).2.Nodup ∧
    (∀ q, q ∈ (pickleSeqGo cache os).2 ↔
      ((∃ o ∈ os, o.oid = q ∧ o.isPik = false) ∧ cacheGet q cache = none)) := by
  intro os
  induction os with
  | nil =>
    intro cache _
    constructor
    · exact List.nodup_nil
    · intro q
      simp [pickleSeqGo]
  | cons o os ih =>
    intro cache hwf
    have hwfr : ∀ a ∈ os, ∀ b ∈ os, a.oid = b.oid → a.isPik = b.isPik :=
      fun a ha b hb => hwf a (List.mem_cons_of_mem o ha) b (List.mem_cons_of_mem o hb)
    simp only [pickleSeqGo]
    cases hc : cacheGet o.oid cache with
    | some e =>
      obtain ⟨hnodup, hiff⟩ := ih cache hwfr
      refine ⟨hnodup, ?_⟩
      intro q
      rw [hiff q]
      constructor
      · rintro ⟨⟨o2, ho2, hoid, hpik⟩, hnone⟩
        exact ⟨⟨o2, List.mem_cons_of_mem o ho2, hoid, hpik⟩, hnone⟩
      · rintro ⟨⟨o2, ho2, hoid, hpik⟩, hnone⟩
        rcases List.mem_cons.mp ho2 with rfl | ho3
        · rw [hoid] at hc
          rw [hc] at hnone
          cases hnone
        · exact ⟨⟨o2, ho3, hoid, hpik⟩, hnone⟩
    | none =>
      obtain ⟨hnodup, hiff⟩ := ih ((o.oid, canonEnv o) :: cache) hwfr
      by_cases hp : o.isPik
      · rw [if_pos hp]
        refine ⟨hnodup, ?_⟩
        intro q
        rw [hiff q, cacheGet_cons]
        constructor
        · rintro ⟨⟨o2, ho2, hoid, hpik⟩, hnone⟩
          by_cases hqo : q = o.oid
          · rw [if_pos hqo] at hnone
            cases hnone
          · rw [if_neg hqo] at hnone
            exact ⟨⟨o2, List.mem_cons_of_mem o ho2, hoid, hpik⟩, hnone⟩
        · rintro ⟨⟨o2, ho2, hoid, hpik⟩, hnone⟩
          rcases List.mem_cons.mp ho2 with rfl | ho3
          · rw [hp] at hpik
            cases hpik
          · have hqo : q ≠ o.oid := by
              intro hqe
              have hsame := hwf o2 (List.mem_cons_of_mem o ho3) o
                (List.mem_cons_self o os) (by rw [hoid, hqe])
              rw [hp] at hsame
              rw [hsame] at hpik
              cases hpik
            exact ⟨⟨o2, ho3, hoid, hpik⟩, by rw [if_neg hqo]; exact hnone⟩
      · rw [if_neg hp]
        have hnotmem : o.oid ∉ (pickleSeqGo ((o.oid, canonEnv o) :: cache) os).2 := by
          intro hmem
          obtain ⟨_, hnone⟩ := (hiff o.oid).mp hmem
          rw [cacheGet_cons, if_pos rfl] at hnone
          cases hnone
        refine ⟨List.nodup_cons.mpr ⟨hnotmem, hnodup⟩, ?_⟩
        intro q
        rw [List.mem_cons, hiff q, cacheGet_cons]
        constructor
        · rintro (rfl | ⟨⟨o2, ho2, hoid, hpik⟩, hnone⟩)
          · exact ⟨⟨o, List.mem_cons_self o os, rfl, Bool.not_eq_true _ ▸ eq_false_of_ne_true hp⟩, hc⟩
          · by_cases hqo : q = o.oid
            · rw [if_pos hqo] at hnone
              cases hnone
            · rw [if_neg hqo] at hnone
              exact ⟨⟨o2, List.mem_cons_of_mem o ho2, hoid, hpik⟩, hnone⟩
        · rintro ⟨⟨o2, ho2, hoid, hpik⟩, hnone⟩
          rcases List.mem_cons.mp ho2 with rfl | ho3
          · exact Or.inl hoid.symm
          · by_cases hqo : q = o.oid
            · exact Or.inl hqo
            · exact Or.inr ⟨⟨o2, ho3, hoid, hpik⟩, by rw [if_neg hqo]; exact hnone⟩

/-- C8: pickle_sequence creates exactly one envelope per distinct raw
object identity, repeated references to the same object reuse the same
envelope, objects already pickled are not re-encoded, and the output list
has the same length and order as the input. -/
theorem pickle_sequence_memoizes (objs : List PyRef)
    (hwf : ∀ a ∈ objs, ∀ b ∈ objs, a.oid = b.oid → a.isPik = b.isPik) :
    (pickle_sequence objs).1.length = objs.length ∧
    (pickle_sequence objs).1 = objs.map canonEnv ∧
    (∀ i j : Nat, ∀ a b : PyRef, objs[i]? = some a → objs[j]? = some b →
        a.oid = b.oid → (pickle_sequence objs).1[i]? = (pickle_sequence objs).1[j]?) ∧
    (∀ a ∈ objs, a.isPik = true → canonEnv a = PickEnv.reused a.oid) ∧
    (pickle_sequence objs).2.Nodup ∧
    (∀ q, q ∈ (pickle_sequence objs).2 ↔ ∃ o ∈ objs, o.oid = q ∧ o.isPik = false) := by
  unfold pickle_sequence
  have hmap : (pickleSeqGo [] objs).1 = objs.map canonEnv :=
    pickleSeqGo_fst_map objs [] (fun q e hq => by cases hq) hwf
  obtain ⟨hnodup, hiff⟩ := pickleSeqGo_created objs [] hwf
  refine ⟨by rw [hmap]; exact List.length_map objs canonEnv, hmap, ?_, ?_, hnodup, ?_⟩
  · intro i j a b ha hb hoid
    rw [hmap]
    have hamem : a ∈ objs := by
      obtain ⟨hi, rfl⟩ := List.getElem?_eq_some.mp ha
      exact List.getElem_mem hi
    have hbmem : b ∈ objs := by
      obtain ⟨hi, rfl⟩ := List.getElem?_eq_some.mp hb
      exact List.getElem_mem hi
    have hcanon : canonEnv a = canonEnv b :=
      canonEnv_congr a b hoid (hwf a hamem b hbmem hoid)
    simp [ha, hb, hcanon]
  · intro a _ hp
    unfold canonEnv
    rw [hp]
    simp
  · intro q
    rw [hiff q]
    simp [cacheGet]

/-- Witness for C8 on a concrete batch with a repeated identity 7, an
already pickled object 8 and a fresh object 9. -/
theorem pickle_sequence_memoizes_witness :
    (∀ a ∈ [(⟨7, false⟩ : PyRef), ⟨8, true⟩, ⟨7, false⟩, ⟨9, false⟩],
       ∀ b ∈ [(⟨7, false⟩ : PyRef), ⟨8, true⟩, ⟨7, false⟩, ⟨9, false⟩],
         a.oid = b.oid → a.isPik = b.isPik) ∧
    ((pickle_sequence [⟨7, false⟩, ⟨8, true⟩, ⟨7, false⟩, ⟨9, false⟩]).1.length
        = ([(⟨7, false⟩ : PyRef), ⟨8, true⟩, ⟨7, false⟩, ⟨9, false⟩]).length ∧
     (pickle_sequence [⟨7, false⟩, ⟨8, true⟩, ⟨7, false⟩, ⟨9, false⟩]).1
        = ([(⟨7, false⟩ : PyRef), ⟨8, true⟩, ⟨7, false⟩, ⟨9, false⟩]).map canonEnv ∧
     (∀ i j : Nat, ∀ a b : PyRef,
        ([(⟨7, false⟩ : PyRef), ⟨8, true⟩, ⟨7, false⟩, ⟨9, false⟩])[i]? = some a →
        ([(⟨7, false⟩ : PyRef), ⟨8, true⟩, ⟨7, false⟩, ⟨9, false⟩])[j]? = some b →
        a.oid = b.oid →
        (pickle_sequence [⟨7, false⟩, ⟨8, true⟩, ⟨7, false⟩, ⟨9, false⟩]).1[i]?
          = (pickle_sequence [⟨7, false⟩, ⟨8, true⟩, ⟨7, false⟩, ⟨9, false⟩]).1[j]?) ∧
     (∀ a ∈ [(⟨7, false⟩ : PyRef), ⟨8, true⟩, ⟨7, false⟩, ⟨9, false⟩],
        a.isPik = true → canonEnv a = PickEnv.reused a.oid) ∧
     (pickle_sequence [⟨7, false⟩, ⟨8, true⟩, ⟨7, false⟩, ⟨9, false⟩]).2.Nodup ∧
     (∀ q, q ∈ (pickle_sequence [⟨7, false⟩, ⟨8, true⟩, ⟨7, false⟩, ⟨9, false⟩]).2 ↔
        ∃ o ∈ [(⟨7, false⟩ : PyRef), ⟨8, true⟩, ⟨7, false⟩, ⟨9, false⟩],
          o.oid = q ∧ o.isPik = false)) :=
  ⟨by decide, pickle_sequence_memoizes [⟨7, false⟩, ⟨8, true⟩, ⟨7, false⟩, ⟨9, false⟩]
    (by decide)⟩

/-! ## Claim C10: Starmap.apply drops the last element of args -/

/-- C10: Starmap.apply splits only args[0] into chunks and forwards only
the middle elements args[1:-1] as fixed arguments; the last element of
the args tuple is dropped and never passed, so apply with args (seq, x)
calls the task on each chunk with no second argument. -/
theorem starmap_apply_drops_last (seq : List α) (mid : List γ) (x : γ)
    (ct : Nat) (hx : x ∉ mid) :
    (∀ ta ∈ Starmap.applyTaskargs seq (mid ++ [x]) ct, ta.2 = mid) ∧
    (∀ ta ∈ Starmap.applyTaskargs seq [x] ct, ta.2 = ([] : List γ)) ∧
    (∀ ta ∈ Starmap.applyTaskargs seq (mid ++ [x]) ct, x ∉ ta.2) := by
  have hsnd := applyTaskargs_snd seq (mid ++ [x]) ct
  rw [List.dropLast_concat] at hsnd
  refine ⟨hsnd, ?_, ?_⟩
  · have h2 := applyTaskargs_snd seq [x] ct
    simpa using h2
  · intro ta hta
    rw [hsnd ta hta]
    exact hx

/-- Witness for C10: applying with args ([10, 20, 30], 5, 7) forwards
only the middle argument 5 to every chunk and never the last argument 7. -/
theorem starmap_apply_drops_last_witness :
    ((7 : Nat) ∉ [5]) ∧
    ((∀ ta ∈ Starmap.applyTaskargs [10, 20, 30] ([5] ++ [7]) 2, ta.2 = [5]) ∧
     (∀ ta ∈ Starmap.applyTaskargs [10, 20, 30] [(7 : Nat)] 2, ta.2 = ([] : List Nat)) ∧
     (∀ ta ∈ Starmap.applyTaskargs [10, 20, 30] ([5] ++ [7]) 2, 7 ∉ ta.2)) :=
  ⟨by decide, starmap_apply_drops_last [10, 20, 30] [5] 7 2 (by decide)⟩

end OQ
